import Mathlib

/-!
Verification of the HEIC-to-JPG converter (web app in app.py, command line
tool in convert_heic_cli.py) against its natural-language specification.

The two Python files are shallowly embedded below. Bytes are lists of
naturals, paths and filenames are strings with the slash as separator, and
the external imaging library (pillow-heif decode, Pillow JPEG encode) is an
abstract oracle: the repository never inspects image contents itself, it
only routes bytes through the library. Filesystem state is explicit: the
web session directory is a list of (name, bytes) pairs, the CLI filesystem
is a list of regular files plus a list of directories, kept in the
enumeration order the OS would yield.
-/

namespace HeicConv

/-- A decoded image as the external library hands it back: a color mode tag
(for the RGBA or P normalization step) plus opaque pixel data. -/
structure Img where
  mode : String
  data : Nat
deriving Repr, DecidableEq

/-- The external imaging library as a black box: decode raw bytes into an
image or fail with an exception message, and encode an image to JPEG bytes
at a given quality. The repository treats both as opaque. -/
structure Oracle where
  decode : List Nat → Except String Img
  encode : Img → Nat → List Nat

/-- Image.convert("RGB") applied when img.mode is RGBA or P, as both
conversion paths do before saving. -/
def normalizeMode (img : Img) : Img :=
  if img.mode = "RGBA" ∨ img.mode = "P" then { img with mode := "RGB" } else img

/-- Lookup in an association list keyed by strings, first match wins; models
both dict access in app.py and file lookup in the filesystem model. -/
def lookupKey {β : Type} (m : List (String × β)) (k : String) : Option β :=
  match m with
  | [] => none
  | (k0, v) :: rest => if k0 = k then some v else lookupKey rest k

/-- Set a key in an association list in place (first occurrence), appending
when absent; models dict assignment and overwriting a file at a path. -/
def setKey {β : Type} (m : List (String × β)) (k : String) (v : β) :
    List (String × β) :=
  match m with
  | [] => [(k, v)]
  | (k0, v0) :: rest =>
    if k0 = k then (k, v) :: rest else (k0, v0) :: setKey rest k v

/-- The base name part of os.path.splitext applied to a bare filename (no
directory separators): everything before the extension. The extension starts
at the last dot, unless every character before that dot is itself a dot
(leading dots never start an extension), in which case the whole name is the
base. -/
def splitextBase (p : String) : String :=
  let cs := p.data
  match (cs.reverse.findIdx? fun c => c = '.') with
  | none => p
  | some ri =>
    let d := cs.length - 1 - ri
    if (cs.take d).all fun c => c = '.' then p else String.mk (cs.take d)

/-- Python str.lower() on the ASCII names the converter deals with:
lowercase each character. -/
def strLower (s : String) : String := String.mk (s.data.map Char.toLower)

/-- Python str.endswith(t): t is a suffix of s. -/
def strEndsWith (s t : String) : Bool := t.data.isSuffixOf s.data

/-- Python str.startswith(t): t is a prefix of s. -/
def strStartsWith (s t : String) : Bool := t.data.isPrefixOf s.data

/-- Code point lexicographic comparison of character lists, the order Python
sorted uses on the path strings. -/
def charListLe : List Char → List Char → Bool
  | [], _ => true
  | _ :: _, [] => false
  | a :: as, b :: bs =>
    if a.toNat < b.toNat then true
    else if b.toNat < a.toNat then false
    else charListLe as bs

def pathLe (a b : String) : Bool := charListLe a.data b.data

/-- The lowercase-extension test of app.py line 60:
filename.lower().endswith((".heic", ".heif")). -/
def isHeicName (s : String) : Bool :=
  strEndsWith (strLower s) ".heic" || strEndsWith (strLower s) ".heif"

/-! ## Web conversion endpoint (app.py, convert_files) -/

/-- One multipart upload entry: the client supplied filename and raw bytes. -/
structure Entry where
  filename : String
  content : List Nat
deriving Repr, DecidableEq

/-- One element of the converted list in the response JSON. -/
structure ConvertedEntry where
  original : String
  converted : String
  size : Nat
deriving Repr, DecidableEq

/-- One element of the failed list in the response JSON. -/
structure FailedEntry where
  name : String
  error : String
deriving Repr, DecidableEq

/-- The loop state of convert_files: the two result lists, the
file_counter dict used for duplicate base names, and the contents of the
session directory (output filename to bytes). -/
structure WebState where
  converted : List ConvertedEntry
  failed : List FailedEntry
  counter : List (String × Nat)
  sessionFiles : List (String × List Nat)
deriving Repr, DecidableEq

def initWebState : WebState := ⟨[], [], [], []⟩

/-- The body of the per-file loop of convert_files (app.py lines 52 to 107):
skip empty names, reject non HEIC/HEIF names, reject empty byte contents,
otherwise decode, pick the output name through the duplicate counter, encode
at quality 95 and record the success. A decode or save exception is caught
and recorded with its message. -/
def webStep (O : Oracle) (st : WebState) (e : Entry) : WebState :=
  if e.filename = "" then st
  else if isHeicName e.filename = false then
    { st with failed := st.failed ++ [⟨e.filename, "Not a HEIC/HEIF file"⟩] }
  else if e.content.length = 0 then
    { st with failed := st.failed ++ [⟨e.filename, "Empty file"⟩] }
  else
    match O.decode e.content with
    | .error msg => { st with failed := st.failed ++ [⟨e.filename, msg⟩] }
    | .ok img =>
      let base := splitextBase e.filename
      let pick :=
        match lookupKey st.counter base with
        | some n =>
          (setKey st.counter base (n + 1),
            base ++ "_" ++ toString (n + 1) ++ ".jpg")
        | none => (st.counter ++ [(base, 0)], base ++ ".jpg")
      let bytes := O.encode (normalizeMode img) 95
      { converted := st.converted ++ [⟨e.filename, pick.2, bytes.length⟩]
        failed := st.failed
        counter := pick.1
        sessionFiles := setKey st.sessionFiles pick.2 bytes }

/-- The whole per-file loop of convert_files over the uploaded entries. -/
def webProcess (O : Oracle) (files : List Entry) : WebState :=
  files.foldl (webStep O) initWebState

/-- The JSON response of the convert endpoint: either an error object
(optionally carrying the failed list, as the no-files-converted branch does)
or the success object with session id, both lists and both counts. -/
inductive WebResponse where
  | failure (message : String) (failed : Option (List FailedEntry))
  | success (session_id : String) (converted : List ConvertedEntry)
      (failed : List FailedEntry) (total_converted total_failed : Nat)
deriving Repr, DecidableEq

def WebResponse.isFailure : WebResponse → Bool
  | .failure _ _ => true
  | .success _ _ _ _ _ => false

/-- The convert endpoint (app.py lines 30 to 126). hasFilesField models
whether the multipart field named files is present at all; sessionId stands
for the freshly generated uuid4 token. The second component is the session
directory on disk: none when the request returned before the makedirs call
of line 45, some contents once that call ran. -/
def convert_files (O : Oracle) (sessionId : String) (hasFilesField : Bool)
    (files : List Entry) :
    WebResponse × Option (List (String × List Nat)) :=
  if hasFilesField = false then (.failure "No files uploaded" none, none)
  else if files.isEmpty || files.all (fun f => f.filename = "") then
    (.failure "No files selected" none, none)
  else
    let st := webProcess O files
    if st.converted.isEmpty then
      (.failure "No files were converted" (some st.failed), some st.sessionFiles)
    else
      (.success sessionId st.converted st.failed st.converted.length
        st.failed.length, some st.sessionFiles)

/-! ## CLI conversion tool (convert_heic_cli.py) -/

/-- The filesystem as the CLI sees it: the regular files (path to bytes, in
the enumeration order the OS would yield) and the directories. Paths are
relative strings with slash separators and no trailing slash. -/
structure FS where
  files : List (String × List Nat)
  dirs : List String
deriving Repr, DecidableEq

def FS.isFile (fs : FS) (p : String) : Bool :=
  (lookupKey fs.files p).isSome

def FS.isDir (fs : FS) (p : String) : Bool :=
  fs.dirs.contains p

/-- Path.exists(): true for a regular file or a directory. -/
def FS.pathExists (fs : FS) (p : String) : Bool :=
  fs.isFile p || fs.isDir p

def FS.read (fs : FS) (p : String) : List Nat :=
  (lookupKey fs.files p).getD []

def FS.write (fs : FS) (p : String) (b : List Nat) : FS :=
  { fs with files := setKey fs.files p b }

/-- Directory creation with the parents and exist_ok flags of line 51:
record the directory when it is new. -/
def FS.mkdirp (fs : FS) (d : String) : FS :=
  if fs.dirs.contains d then fs else { fs with dirs := fs.dirs ++ [d] }

/-- Lines 49 to 53 of convert_heic_to_jpg: an explicit output directory is
created on disk, no explicit directory leaves the filesystem alone. -/
def FS.withOutputDir (fs : FS) (output_dir : Option String) : FS :=
  match output_dir with
  | some d => fs.mkdirp d
  | none => fs

/-- Path(p).parent as a string: the text before the last slash, or a dot
when the path has no slash. -/
def parentPath (p : String) : String :=
  match (p.data.reverse.findIdx? fun c => c = '/') with
  | none => "."
  | some ri => String.mk (p.data.take (p.data.length - 1 - ri))

/-- The final component of a path. -/
def baseName (p : String) : String :=
  match (p.data.reverse.findIdx? fun c => c = '/') with
  | none => p
  | some ri => String.mk (p.data.drop (p.data.length - ri))

/-- Path(p).stem: the final component without its suffix; the suffix is the
part from the last dot of the name when that dot is neither the first nor
the last character. -/
def pathStem (p : String) : String :=
  let name := baseName p
  let cs := name.data
  match (cs.reverse.findIdx? fun c => c = '.') with
  | none => name
  | some ri =>
    let i := cs.length - 1 - ri
    if 0 < i ∧ i < cs.length - 1 then String.mk (cs.take i) else name

/-- Joining one component onto a directory path with a slash. -/
def joinPath (d : String) (n : String) : String := d ++ "/" ++ n

/-- The jpg_path convert_heic_to_jpg aims at (lines 49 to 56): target
directory (the explicit output directory, defaulting to the parent of the
source) joined with stem plus the jpg suffix. -/
def cliTarget (p : String) (output_dir : Option String) : String :=
  joinPath (output_dir.getD (parentPath p)) (pathStem p ++ ".jpg")

/-- The value convert_heic_to_jpg returns, as the callers test it: None
(falsy) for a missing input or a caught exception, the jpg path (truthy)
when the target already existed or was freshly written. -/
inductive CliOutcome where
  | notFound
  | skipped (path : String)
  | converted (path : String)
  | failed (message : String)
deriving Repr, DecidableEq

/-- Truthiness of the returned value: the callers count an outcome carrying
a path as converted and a None as failed. -/
def CliOutcome.isSuccess : CliOutcome → Bool
  | .skipped _ => true
  | .converted _ => true
  | .notFound => false
  | .failed _ => false

/-- convert_heic_to_jpg (lines 30 to 76): missing input gives None; an
explicit output directory is created; an already existing target is skipped
without touching the filesystem; otherwise the input is decoded (any
exception is caught and reported) and encoded to the target at the given
quality. -/
def convert_heic_to_jpg (O : Oracle) (fs : FS) (heic_path : String)
    (output_dir : Option String) (quality : Nat) : CliOutcome × FS :=
  if fs.pathExists heic_path = false then (.notFound, fs)
  else
    let fs1 := fs.withOutputDir output_dir
    let jpg_path := cliTarget heic_path output_dir
    if fs1.pathExists jpg_path then (.skipped jpg_path, fs1)
    else
      match O.decode (fs1.read heic_path) with
      | .error msg => (.failed msg, fs1)
      | .ok img =>
        (.converted jpg_path,
          fs1.write jpg_path (O.encode (normalizeMode img) quality))

/-- Whether path p is a direct child of directory d named with no further
slash, the files a non-recursive glob of d enumerates. -/
def isDirectChildOf (d p : String) : Bool :=
  strStartsWith p (d ++ "/") && !((p.data.drop (d.length + 1)).contains '/')
    && !(p.data.drop (d.length + 1)).isEmpty

/-- Whether path p lies anywhere strictly under directory d, the files a
recursive glob of d enumerates. -/
def isUnderDir (d p : String) : Bool :=
  strStartsWith p (d ++ "/") && !(p.data.drop (d.length + 1)).isEmpty

/-- Path(d).glob("*" + suffix) respectively rglob: the regular files in d
(or strictly under d when recursive) whose name ends with the literal
suffix. Glob pattern matching is case sensitive, so each of the four
patterns of lines 100 to 104 matches its exact extension spelling only. -/
def globExt (fs : FS) (d : String) (recursive : Bool) (suffix : String) :
    List String :=
  (fs.files.map Prod.fst).filter fun p =>
    (if recursive then isUnderDir d p else isDirectChildOf d p)
      && strEndsWith p suffix

/-- The concatenated glob results of convert_folder lines 99 to 104, in
their order: .heic, .HEIC, .heif, .HEIF. -/
def findHeicFiles (fs : FS) (d : String) (recursive : Bool) : List String :=
  globExt fs d recursive ".heic" ++ globExt fs d recursive ".HEIC"
    ++ globExt fs d recursive ".heif" ++ globExt fs d recursive ".HEIF"

/-- The duplicate removal loop of lines 107 to 113: keep the first
occurrence of each lowercased path string. -/
def dedupLower (seen : List String) : List String → List String
  | [] => []
  | p :: rest =>
    if seen.contains (strLower p) then dedupLower seen rest
    else p :: dedupLower (seen ++ [strLower p]) rest

def dedupCase (l : List String) : List String := dedupLower [] l

/-- sorted(heic_files): Python sorts the path strings lexicographically by
code points. -/
def sortPaths (l : List String) : List String :=
  List.insertionSort (fun a b => pathLe a b = true) l

/-- The list of files the folder loop of line 125 actually processes, in
processing order: globbed, deduplicated, sorted. -/
def folderFileList (fs : FS) (d : String) (recursive : Bool) : List String :=
  sortPaths (dedupCase (findHeicFiles fs d recursive))

/-- One iteration of the folder loop (lines 125 to 136): pick the output
directory (a jpg files sibling subfolder, or the parent itself), convert,
and count the truthy outcome as converted, the falsy one as failed. -/
def folderStep (O : Oracle) (create_subfolder : Bool) (quality : Nat)
    (acc : (Nat × Nat) × FS) (f : String) : (Nat × Nat) × FS :=
  let odir := if create_subfolder then joinPath (parentPath f) "jpg files"
    else parentPath f
  let r := convert_heic_to_jpg O acc.2 f (some odir) quality
  if r.1.isSuccess then ((acc.1.1 + 1, acc.1.2), r.2)
  else ((acc.1.1, acc.1.2 + 1), r.2)

/-- convert_folder (lines 79 to 139): nothing happens for a missing folder
or when no file matched; otherwise every selected file is processed in
sorted order. Note the explicit output option of the command line never
reaches this function. -/
def convert_folder (O : Oracle) (fs : FS) (d : String)
    (recursive create_subfolder : Bool) (quality : Nat) : (Nat × Nat) × FS :=
  if fs.pathExists d = false then ((0, 0), fs)
  else
    let files := folderFileList fs d recursive
    if files.isEmpty then ((0, 0), fs)
    else files.foldl (folderStep O create_subfolder quality) ((0, 0), fs)

/-- One iteration of the argument loop of main (lines 239 to 262): a file
argument goes straight to convert_heic_to_jpg with the explicit output
option; a directory argument goes to convert_folder, which ignores that
option; anything else only prints a warning. -/
def cliStep (O : Oracle) (recursive : Bool) (output : Option String)
    (no_subfolder : Bool) (quality : Nat) (acc : (Nat × Nat) × FS)
    (p : String) : (Nat × Nat) × FS :=
  if acc.2.isFile p then
    let r := convert_heic_to_jpg O acc.2 p output quality
    if r.1.isSuccess then ((acc.1.1 + 1, acc.1.2), r.2)
    else ((acc.1.1, acc.1.2 + 1), r.2)
  else if acc.2.isDir p then
    let r := convert_folder O acc.2 p recursive (no_subfolder = false) quality
    ((acc.1.1 + r.1.1, acc.1.2 + r.1.2), r.2)
  else acc

/-- The non-interactive part of main: fold the argument loop over the given
paths, starting from zero totals, returning the final totals and the final
filesystem. -/
def cliMain (O : Oracle) (fs : FS) (paths : List String) (recursive : Bool)
    (output : Option String) (no_subfolder : Bool) (quality : Nat) :
    (Nat × Nat) × FS :=
  paths.foldl (cliStep O recursive output no_subfolder quality) ((0, 0), fs)

/-! ## Download endpoint (app.py, download_zip) -/

/-- One entry of a session directory listing: its name, its bytes, and
whether it is a regular file (os.path.isfile) rather than a subdirectory. -/
structure DirEntry where
  name : String
  content : List Nat
  regular : Bool
deriving Repr, DecidableEq

/-- The response of the download endpoint: the two 404 error bodies, or the
ZIP attachment, given as the flat list of archive member names with their
bytes. -/
inductive DownloadResult where
  | sessionNotFound
  | emptySession
  | archive (entries : List (String × List Nat))
deriving Repr, DecidableEq

/-- download_zip (app.py lines 129 to 169) over the session store, a map
from session id to directory listing (absent key: no directory on disk).
Returns the response and the session store afterwards: the function reads
the session directory and writes the ZIP beside it, it never removes or
rewrites any session directory. -/
def download_zip (sessions : List (String × List DirEntry)) (sid : String) :
    DownloadResult × List (String × List DirEntry) :=
  match lookupKey sessions sid with
  | none => (.sessionNotFound, sessions)
  | some entries =>
    if entries.isEmpty then (.emptySession, sessions)
    else
      (.archive ((entries.filter fun e => e.regular).map fun e =>
        (e.name, e.content)), sessions)

/-! ## Concrete instances used in counterexamples and witnesses -/

/-- A decoder standing for the library on a batch of well formed images: it
succeeds on every nonempty input and fails on empty input the way Pillow
does, with a cannot-identify exception message. -/
def okOracle : Oracle where
  decode := fun b =>
    if b.isEmpty then .error "cannot identify image file" else .ok ⟨"RGB", 0⟩
  encode := fun _ _ => [255, 216, 255]

/-! ## Derived notions for the duplicate-name discipline (app.py 79 to 90) -/

/-- The output name the counter discipline assigns to the occurrence with
index k of a base name: the bare name for the first occurrence, an
underscore-k suffix for the later ones. -/
def suffixName (b : String) : Nat → String
  | 0 => b ++ ".jpg"
  | k + 1 => b ++ "_" ++ toString (k + 1) ++ ".jpg"

/-- The full expected name sequence for n successes sharing base b. -/
def expectedNames (b : String) (n : Nat) : List String :=
  (List.range n).map (suffixName b)

/-- How many successes with base b the counter has recorded: the dict holds
occurrences minus one, absence means zero. -/
def counterVal (st : WebState) (b : String) : Nat :=
  match lookupKey st.counter b with
  | none => 0
  | some n => n + 1

/-- The output names handed out so far to the successes whose original
filename has base b, in input order. -/
def namesForBase (st : WebState) (b : String) : List String :=
  (st.converted.filter fun c => splitextBase c.original == b).map
    ConvertedEntry.converted

/-! ## Association list and filesystem lemmas -/

lemma lookupKey_setKey_self {β : Type} (m : List (String × β)) (k : String)
    (v : β) : lookupKey (setKey m k v) k = some v := by
  induction m with
  | nil => simp [setKey, lookupKey]
  | cons kv rest ih =>
    obtain ⟨k0, v0⟩ := kv
    by_cases h : k0 = k
    · simp [setKey, lookupKey, h]
    · simp [setKey, lookupKey, h, ih]

lemma lookupKey_setKey_other {β : Type} (m : List (String × β))
    (k k' : String) (v : β) (h : k' ≠ k) :
    lookupKey (setKey m k v) k' = lookupKey m k' := by
  induction m with
  | nil => simp [setKey, lookupKey, Ne.symm h]
  | cons kv rest ih =>
    obtain ⟨k0, v0⟩ := kv
    by_cases h0 : k0 = k
    · subst h0
      simp [setKey, lookupKey, Ne.symm h]
    · simp only [setKey, if_neg h0, lookupKey]
      by_cases h1 : k0 = k'
      · simp [h1]
      · simp [h1, ih]

lemma lookupKey_append {β : Type} (m m2 : List (String × β)) (k : String) :
    lookupKey (m ++ m2) k
      = match lookupKey m k with
        | some v => some v
        | none => lookupKey m2 k := by
  induction m with
  | nil => simp [lookupKey]
  | cons kv rest ih =>
    obtain ⟨k0, v0⟩ := kv
    by_cases h : k0 = k
    · simp [lookupKey, h]
    · simp [lookupKey, h, ih]

lemma mkdirp_files (fs : FS) (d : String) : (fs.mkdirp d).files = fs.files := by
  unfold FS.mkdirp
  split <;> rfl

lemma withOutputDir_files (fs : FS) (o : Option String) :
    (fs.withOutputDir o).files = fs.files := by
  cases o with
  | none => rfl
  | some d => simpa [FS.withOutputDir] using mkdirp_files fs d

lemma withOutputDir_isFile (fs : FS) (o : Option String) (p : String) :
    (fs.withOutputDir o).isFile p = fs.isFile p := by
  unfold FS.isFile
  rw [withOutputDir_files]

lemma withOutputDir_read (fs : FS) (o : Option String) (p : String) :
    (fs.withOutputDir o).read p = fs.read p := by
  unfold FS.read
  rw [withOutputDir_files]

lemma mkdirp_isDir (fs : FS) (d p : String) :
    (fs.mkdirp d).isDir p = (fs.isDir p || p == d) := by
  unfold FS.mkdirp FS.isDir
  by_cases h : d ∈ fs.dirs
  · by_cases hp : p = d
    · subst hp
      simp [h]
    · simp [h, hp]
  · by_cases hp : p = d
    · subst hp
      simp [h]
    · simp [h, hp]

lemma joinPath_ne (d n : String) : joinPath d n ≠ d := by
  intro h
  have h2 := congrArg String.length h
  have h3 : ("/" : String).length = 1 := rfl
  simp only [joinPath, String.length_append, h3] at h2
  omega

lemma cliTarget_some_ne (p d : String) : cliTarget p (some d) ≠ d := by
  simpa [cliTarget, Option.getD] using joinPath_ne d (pathStem p ++ ".jpg")

lemma withOutputDir_pathExists_target (fs : FS) (p : String)
    (o : Option String) :
    (fs.withOutputDir o).pathExists (cliTarget p o)
      = fs.pathExists (cliTarget p o) := by
  cases o with
  | none => rfl
  | some d =>
    have hne : (cliTarget p (some d) == d) = false := by
      simpa using cliTarget_some_ne p d
    simp only [FS.withOutputDir, FS.pathExists, mkdirp_isDir, hne,
      Bool.or_false, FS.isFile, mkdirp_files]

/-! ## Branch equations for convert_heic_to_jpg -/

lemma convert_skip (O : Oracle) (fs : FS) (p : String) (odir : Option String)
    (q : Nat) (h1 : fs.pathExists p = true)
    (h2 : fs.pathExists (cliTarget p odir) = true) :
    convert_heic_to_jpg O fs p odir q
      = (.skipped (cliTarget p odir), fs.withOutputDir odir) := by
  unfold convert_heic_to_jpg
  simp [h1, withOutputDir_pathExists_target, h2]

lemma convert_decodeErr (O : Oracle) (fs : FS) (p : String)
    (odir : Option String) (q : Nat) (msg : String)
    (h1 : fs.pathExists p = true)
    (h2 : fs.pathExists (cliTarget p odir) = false)
    (h3 : O.decode (fs.read p) = .error msg) :
    convert_heic_to_jpg O fs p odir q = (.failed msg, fs.withOutputDir odir) := by
  unfold convert_heic_to_jpg
  simp [h1, withOutputDir_pathExists_target, h2, withOutputDir_read, h3]

lemma convert_ok (O : Oracle) (fs : FS) (p : String) (odir : Option String)
    (q : Nat) (img : Img)
    (h1 : fs.pathExists p = true)
    (h2 : fs.pathExists (cliTarget p odir) = false)
    (h3 : O.decode (fs.read p) = .ok img) :
    convert_heic_to_jpg O fs p odir q
      = (.converted (cliTarget p odir),
        (fs.withOutputDir odir).write (cliTarget p odir)
          (O.encode (normalizeMode img) q)) := by
  unfold convert_heic_to_jpg
  simp [h1, withOutputDir_pathExists_target, h2, withOutputDir_read, h3]

lemma cliMain_single_file (O : Oracle) (fs : FS) (p : String) (rec nsf : Bool)
    (out : Option String) (q : Nat) (h : fs.isFile p = true) :
    cliMain O fs [p] rec out nsf q
      = ((if (convert_heic_to_jpg O fs p out q).1.isSuccess then (1, 0)
          else (0, 1)),
        (convert_heic_to_jpg O fs p out q).2) := by
  simp only [cliMain, List.foldl_cons, List.foldl_nil, cliStep, h, if_true]
  split <;> rfl

/-! ## Branch equations for webStep -/

lemma webStep_empty (O : Oracle) (st : WebState) (e : Entry)
    (h : e.filename = "") : webStep O st e = st := by
  simp [webStep, h]

lemma webStep_notHeic (O : Oracle) (st : WebState) (e : Entry)
    (h1 : e.filename ≠ "") (h2 : isHeicName e.filename = false) :
    webStep O st e
      = { st with failed := st.failed
          ++ [⟨e.filename, "Not a HEIC/HEIF file"⟩] } := by
  simp [webStep, h1, h2]

lemma webStep_emptyBytes (O : Oracle) (st : WebState) (e : Entry)
    (h1 : e.filename ≠ "") (h2 : isHeicName e.filename = true)
    (h3 : e.content = []) :
    webStep O st e
      = { st with failed := st.failed ++ [⟨e.filename, "Empty file"⟩] } := by
  simp [webStep, h1, h2, h3]

lemma webStep_decodeErr (O : Oracle) (st : WebState) (e : Entry) (msg : String)
    (h1 : e.filename ≠ "") (h2 : isHeicName e.filename = true)
    (h3 : e.content ≠ []) (h4 : O.decode e.content = .error msg) :
    webStep O st e
      = { st with failed := st.failed ++ [⟨e.filename, msg⟩] } := by
  simp [webStep, h1, h2, List.length_eq_zero, h3, h4]

lemma webStep_ok_new (O : Oracle) (st : WebState) (e : Entry) (img : Img)
    (h1 : e.filename ≠ "") (h2 : isHeicName e.filename = true)
    (h3 : e.content ≠ []) (h4 : O.decode e.content = .ok img)
    (h5 : lookupKey st.counter (splitextBase e.filename) = none) :
    webStep O st e
      = { converted := st.converted
            ++ [⟨e.filename, splitextBase e.filename ++ ".jpg",
              (O.encode (normalizeMode img) 95).length⟩]
          failed := st.failed
          counter := st.counter ++ [(splitextBase e.filename, 0)]
          sessionFiles := setKey st.sessionFiles
            (splitextBase e.filename ++ ".jpg")
            (O.encode (normalizeMode img) 95) } := by
  simp [webStep, h1, h2, List.length_eq_zero, h3, h4, h5]

lemma webStep_ok_seen (O : Oracle) (st : WebState) (e : Entry) (img : Img)
    (n : Nat)
    (h1 : e.filename ≠ "") (h2 : isHeicName e.filename = true)
    (h3 : e.content ≠ []) (h4 : O.decode e.content = .ok img)
    (h5 : lookupKey st.counter (splitextBase e.filename) = some n) :
    webStep O st e
      = { converted := st.converted
            ++ [⟨e.filename,
              splitextBase e.filename ++ "_" ++ toString (n + 1) ++ ".jpg",
              (O.encode (normalizeMode img) 95).length⟩]
          failed := st.failed
          counter := setKey st.counter (splitextBase e.filename) (n + 1)
          sessionFiles := setKey st.sessionFiles
            (splitextBase e.filename ++ "_" ++ toString (n + 1) ++ ".jpg")
            (O.encode (normalizeMode img) 95) } := by
  simp [webStep, h1, h2, List.length_eq_zero, h3, h4, h5]

/-! ## The duplicate-name invariant (claim C3) -/

lemma namesForBase_step (O : Oracle) (e : Entry) (st : WebState)
    (h : ∀ b, namesForBase st b = expectedNames b (counterVal st b)) :
    ∀ b, namesForBase (webStep O st e) b
      = expectedNames b (counterVal (webStep O st e) b) := by
  intro b
  by_cases h1 : e.filename = ""
  · rw [webStep_empty O st e h1]
    exact h b
  by_cases h2 : isHeicName e.filename = true
  case neg =>
    rw [webStep_notHeic O st e h1 (by simpa using h2)]
    exact h b
  by_cases h3 : e.content = []
  · rw [webStep_emptyBytes O st e h1 h2 h3]
    exact h b
  cases hd : O.decode e.content with
  | error msg =>
    rw [webStep_decodeErr O st e msg h1 h2 h3 hd]
    exact h b
  | ok img =>
    cases hl : lookupKey st.counter (splitextBase e.filename) with
    | none =>
      rw [webStep_ok_new O st e img h1 h2 h3 hd hl]
      by_cases hb : b = splitextBase e.filename
      · have hempty : List.map ConvertedEntry.converted
            (List.filter
              (fun c => splitextBase c.original == splitextBase e.filename)
              st.converted) = [] := by
          have h0 := h (splitextBase e.filename)
          simp only [namesForBase, counterVal, hl, expectedNames,
            List.range_zero, List.map_nil] at h0
          exact h0
        subst hb
        simp only [namesForBase, counterVal, List.filter_append,
          List.map_append, hempty, lookupKey_append, hl]
        have hr : List.range 1 = [0] := rfl
        simp [lookupKey, expectedNames, suffixName, hr]
      · have hbeq : (splitextBase e.filename == b) = false := by
          simpa using Ne.symm hb
        have h0 := h b
        simp only [namesForBase, counterVal] at h0
        simp only [namesForBase, counterVal, List.filter_append,
          List.map_append, lookupKey_append, hl, List.filter_cons, hbeq]
        cases hlb : lookupKey st.counter b with
        | none =>
          simp only [hlb] at h0
          simpa [lookupKey, Ne.symm hb] using h0
        | some m =>
          simp only [hlb] at h0
          simpa using h0
    | some n =>
      rw [webStep_ok_seen O st e img n h1 h2 h3 hd hl]
      by_cases hb : b = splitextBase e.filename
      · have hprev : List.map ConvertedEntry.converted
            (List.filter
              (fun c => splitextBase c.original == splitextBase e.filename)
              st.converted)
            = expectedNames (splitextBase e.filename) (n + 1) := by
          have h0 := h (splitextBase e.filename)
          simp only [namesForBase, counterVal, hl] at h0
          exact h0
        subst hb
        simp only [namesForBase, counterVal, List.filter_append,
          List.map_append, hprev, lookupKey_setKey_self]
        rw [show expectedNames (splitextBase e.filename) (n + 1 + 1)
            = expectedNames (splitextBase e.filename) (n + 1)
              ++ [suffixName (splitextBase e.filename) (n + 1)] from by
          simp [expectedNames, List.range_succ]]
        simp [suffixName]
      · have hbeq : (splitextBase e.filename == b) = false := by
          simpa using Ne.symm hb
        have h0 := h b
        simp only [namesForBase, counterVal] at h0
        simp only [namesForBase, counterVal, List.filter_append,
          List.map_append, lookupKey_setKey_other _ _ _ _ hb,
          List.filter_cons, hbeq]
        simpa using h0

lemma namesForBase_fold (O : Oracle) (files : List Entry) (st : WebState)
    (h : ∀ b, namesForBase st b = expectedNames b (counterVal st b)) :
    ∀ b, namesForBase (files.foldl (webStep O) st) b
      = expectedNames b (counterVal (files.foldl (webStep O) st) b) := by
  induction files generalizing st with
  | nil => exact h
  | cons e rest ih => exact ih (webStep O st e) (namesForBase_step O e st h)

/-! ## Counting and bookkeeping lemmas for the web loop -/

lemma webStep_counts (O : Oracle) (st : WebState) (e : Entry) :
    (webStep O st e).converted.length + (webStep O st e).failed.length
      = st.converted.length + st.failed.length
        + (if e.filename = "" then 0 else 1) := by
  by_cases h1 : e.filename = ""
  · rw [webStep_empty O st e h1]
    simp [h1]
  by_cases h2 : isHeicName e.filename = true
  case neg =>
    rw [webStep_notHeic O st e h1 (by simpa using h2)]
    simp [h1]
    omega
  by_cases h3 : e.content = []
  · rw [webStep_emptyBytes O st e h1 h2 h3]
    simp [h1]
    omega
  cases hd : O.decode e.content with
  | error msg =>
    rw [webStep_decodeErr O st e msg h1 h2 h3 hd]
    simp [h1]
    omega
  | ok img =>
    cases hl : lookupKey st.counter (splitextBase e.filename) with
    | none =>
      rw [webStep_ok_new O st e img h1 h2 h3 hd hl]
      simp [h1]
      omega
    | some n =>
      rw [webStep_ok_seen O st e img n h1 h2 h3 hd hl]
      simp [h1]
      omega

lemma webFold_counts (O : Oracle) (files : List Entry) (st : WebState) :
    (files.foldl (webStep O) st).converted.length
      + (files.foldl (webStep O) st).failed.length
      = st.converted.length + st.failed.length
        + (files.filter fun f => f.filename ≠ "").length := by
  induction files generalizing st with
  | nil => simp
  | cons e rest ih =>
    simp only [List.foldl_cons, List.filter_cons]
    rw [ih (webStep O st e)]
    have hc := webStep_counts O st e
    by_cases h : e.filename = ""
    · simp [h] at hc ⊢
      omega
    · simp [h] at hc ⊢
      omega

lemma webStep_namesNonempty (O : Oracle) (st : WebState) (e : Entry)
    (hc : ∀ c ∈ st.converted, c.original ≠ "")
    (hf : ∀ x ∈ st.failed, x.name ≠ "") :
    (∀ c ∈ (webStep O st e).converted, c.original ≠ "")
    ∧ (∀ x ∈ (webStep O st e).failed, x.name ≠ "") := by
  by_cases h1 : e.filename = ""
  · rw [webStep_empty O st e h1]
    exact ⟨hc, hf⟩
  by_cases h2 : isHeicName e.filename = true
  case neg =>
    rw [webStep_notHeic O st e h1 (by simpa using h2)]
    refine ⟨hc, fun x hx => ?_⟩
    rcases List.mem_append.mp hx with hx | hx
    · exact hf x hx
    · simp only [List.mem_singleton] at hx
      subst hx
      exact h1
  by_cases h3 : e.content = []
  · rw [webStep_emptyBytes O st e h1 h2 h3]
    refine ⟨hc, fun x hx => ?_⟩
    rcases List.mem_append.mp hx with hx | hx
    · exact hf x hx
    · simp only [List.mem_singleton] at hx
      subst hx
      exact h1
  cases hd : O.decode e.content with
  | error msg =>
    rw [webStep_decodeErr O st e msg h1 h2 h3 hd]
    refine ⟨hc, fun x hx => ?_⟩
    rcases List.mem_append.mp hx with hx | hx
    · exact hf x hx
    · simp only [List.mem_singleton] at hx
      subst hx
      exact h1
  | ok img =>
    cases hl : lookupKey st.counter (splitextBase e.filename) with
    | none =>
      rw [webStep_ok_new O st e img h1 h2 h3 hd hl]
      refine ⟨fun c hcm => ?_, hf⟩
      rcases List.mem_append.mp hcm with hcm | hcm
      · exact hc c hcm
      · simp only [List.mem_singleton] at hcm
        subst hcm
        exact h1
    | some n =>
      rw [webStep_ok_seen O st e img n h1 h2 h3 hd hl]
      refine ⟨fun c hcm => ?_, hf⟩
      rcases List.mem_append.mp hcm with hcm | hcm
      · exact hc c hcm
      · simp only [List.mem_singleton] at hcm
        subst hcm
        exact h1

lemma webFold_namesNonempty (O : Oracle) (files : List Entry) (st : WebState)
    (hc : ∀ c ∈ st.converted, c.original ≠ "")
    (hf : ∀ x ∈ st.failed, x.name ≠ "") :
    (∀ c ∈ (files.foldl (webStep O) st).converted, c.original ≠ "")
    ∧ (∀ x ∈ (files.foldl (webStep O) st).failed, x.name ≠ "") := by
  induction files generalizing st with
  | nil => exact ⟨hc, hf⟩
  | cons e rest ih =>
    have hstep := webStep_namesNonempty O st e hc hf
    exact ih (webStep O st e) hstep.1 hstep.2

lemma webFold_allEmptyNames (O : Oracle) (files : List Entry) (st : WebState)
    (h : ∀ f ∈ files, f.filename = "") :
    files.foldl (webStep O) st = st := by
  induction files generalizing st with
  | nil => rfl
  | cons e rest ih =>
    simp only [List.foldl_cons]
    rw [webStep_empty O st e (h e (by simp))]
    exact ih st fun f hf => h f (by simp [hf])

/-! ## Order and deduplication lemmas for folder scanning -/

lemma charListLe_total : ∀ l1 l2 : List Char,
    charListLe l1 l2 = true ∨ charListLe l2 l1 = true := by
  intro l1
  induction l1 with
  | nil => intro l2; left; rfl
  | cons a as ih =>
    intro l2
    cases l2 with
    | nil => right; rfl
    | cons b bs =>
      by_cases h1 : a.toNat < b.toNat
      · left
        simp [charListLe, h1]
      · by_cases h2 : b.toNat < a.toNat
        · right
          simp [charListLe, h2]
        · rcases ih bs with h | h
          · left
            simp [charListLe, h1, h2, h]
          · right
            simp [charListLe, h1, h2, h]

lemma charListLe_trans : ∀ l1 l2 l3 : List Char,
    charListLe l1 l2 = true → charListLe l2 l3 = true
      → charListLe l1 l3 = true := by
  intro l1
  induction l1 with
  | nil => intro l2 l3 _ _; rfl
  | cons a as ih =>
    intro l2 l3 h12 h23
    cases l2 with
    | nil => simp [charListLe] at h12
    | cons b bs =>
      cases l3 with
      | nil => simp [charListLe] at h23
      | cons c cs =>
        simp only [charListLe] at h12 h23 ⊢
        by_cases hab : a.toNat < b.toNat
        · by_cases hbc : b.toNat < c.toNat
          · simp [Nat.lt_trans hab hbc]
          · by_cases hcb : c.toNat < b.toNat
            · simp [hbc, hcb] at h23
            · have hac : a.toNat < c.toNat := by omega
              simp [hac]
        · by_cases hba : b.toNat < a.toNat
          · simp [hab, hba] at h12
          · by_cases hbc : b.toNat < c.toNat
            · have hac : a.toNat < c.toNat := by omega
              simp [hac]
            · by_cases hcb : c.toNat < b.toNat
              · simp [hbc, hcb] at h23
              · have hac1 : ¬ a.toNat < c.toNat := by omega
                have hac2 : ¬ c.toNat < a.toNat := by omega
                simp only [hab, hba, if_false] at h12
                simp only [hbc, hcb, if_false] at h23
                simp only [hac1, hac2, if_false]
                exact ih bs cs h12 h23

instance : IsTotal String fun a b => pathLe a b = true :=
  ⟨fun a b => charListLe_total a.data b.data⟩

instance : IsTrans String fun a b => pathLe a b = true :=
  ⟨fun a b c => charListLe_trans a.data b.data c.data⟩

lemma sortPaths_perm (l : List String) : List.Perm (sortPaths l) l :=
  List.perm_insertionSort _ l

lemma sortPaths_sorted (l : List String) :
    (sortPaths l).Sorted fun a b => pathLe a b = true :=
  List.sorted_insertionSort _ l

lemma dedupLower_subset : ∀ (l seen : List String) (p : String),
    p ∈ dedupLower seen l → p ∈ l := by
  intro l
  induction l with
  | nil =>
    intro seen p h
    simp [dedupLower] at h
  | cons a rest ih =>
    intro seen p h
    simp only [dedupLower] at h
    by_cases hc : seen.contains (strLower a) = true
    · simp only [hc, if_true] at h
      exact List.mem_cons_of_mem _ (ih seen p h)
    · simp only [hc, Bool.false_eq_true, if_false] at h
      rcases List.mem_cons.mp h with rfl | h
      · exact List.mem_cons_self _ _
      · exact List.mem_cons_of_mem _ (ih _ p h)

lemma dedupLower_nodupAndFresh : ∀ (l seen : List String),
    ((dedupLower seen l).map strLower).Nodup
    ∧ (∀ p ∈ dedupLower seen l, strLower p ∉ seen) := by
  intro l
  induction l with
  | nil =>
    intro seen
    constructor
    · simp [dedupLower]
    · intro p h
      simp [dedupLower] at h
  | cons a rest ih =>
    intro seen
    simp only [dedupLower]
    by_cases hm : strLower a ∈ seen
    · simpa [hm] using ih seen
    · simp only [List.elem_eq_mem, decide_eq_true_eq, hm, if_false]
      obtain ⟨ihn, ihf⟩ := ih (seen ++ [strLower a])
      constructor
      · simp only [List.map_cons, List.nodup_cons]
        refine ⟨?_, ihn⟩
        intro hmem
        rcases List.mem_map.mp hmem with ⟨p, hp, hpe⟩
        have hfresh := ihf p hp
        rw [hpe] at hfresh
        exact hfresh (by simp)
      · intro p hp
        rcases List.mem_cons.mp hp with rfl | hp
        · exact hm
        · have hfresh := ihf p hp
          intro hin
          exact hfresh (by simp [hin])

lemma dedupLower_covers : ∀ (l seen : List String) (q : String), q ∈ l →
    strLower q ∈ seen
    ∨ ∃ p ∈ dedupLower seen l, strLower p = strLower q := by
  intro l
  induction l with
  | nil =>
    intro seen q h
    cases h
  | cons a rest ih =>
    intro seen q h
    rcases List.mem_cons.mp h with rfl | h
    · by_cases hm : strLower q ∈ seen
      · exact Or.inl hm
      · right
        refine ⟨q, ?_, rfl⟩
        simp only [dedupLower, List.elem_eq_mem, decide_eq_true_eq, hm,
          if_false]
        exact List.mem_cons_self _ _
    · by_cases hm : strLower a ∈ seen
      · rcases ih seen q h with h2 | ⟨p, hp, he⟩
        · exact Or.inl h2
        · right
          refine ⟨p, ?_, he⟩
          simp only [dedupLower, List.elem_eq_mem, decide_eq_true_eq, hm,
            if_true]
          exact hp
      · rcases ih (seen ++ [strLower a]) q h with h2 | ⟨p, hp, he⟩
        · rcases List.mem_append.mp h2 with h2 | h2
          · exact Or.inl h2
          · have heq : strLower q = strLower a := by simpa using h2
            right
            refine ⟨a, ?_, heq.symm⟩
            simp only [dedupLower, List.elem_eq_mem, decide_eq_true_eq, hm,
              if_false]
            exact List.mem_cons_self _ _
        · right
          refine ⟨p, ?_, he⟩
          simp only [dedupLower, List.elem_eq_mem, decide_eq_true_eq, hm,
            if_false]
          exact List.mem_cons_of_mem _ hp

/-! ## Claim C1: when the session directory is created -/

/-- Claim C1 counterexample: a request with one entry whose name is not a
HEIC/HEIF name converts zero files, yet the session directory is created on
disk (app.py line 45 runs before the loop), refuting the claim that the
directory is created only upon the first successful conversion. -/
theorem C1_counterexample :
    (webProcess okOracle [⟨"notes.txt", [1]⟩]).converted = []
    ∧ ((convert_files okOracle "sid" true [⟨"notes.txt", [1]⟩]).2).isSome
        = true := by
  decide

/-- Claim C1, amended: for every web convert request that passes the
initial non-empty checks, the session identifier is minted and its output
directory created up front, before any conversion is attempted; the
directory exists on disk (holding the loop results) even when zero files
convert successfully. -/
theorem C1_amended_theorem (O : Oracle) (sid : String) (files : List Entry)
    (h1 : files.isEmpty = false)
    (h2 : files.all (fun f => f.filename = "") = false) :
    (convert_files O sid true files).2
      = some (webProcess O files).sessionFiles := by
  unfold convert_files
  simp only [h1, h2, Bool.or_self, Bool.false_eq_true, if_false,
    Bool.true_eq_false]
  split <;> rfl

/-- Witness for C1 at a concrete request with one non HEIC entry. -/
theorem C1_witness :
    (convert_files okOracle "sid" true [⟨"notes.txt", [1]⟩]).2
      = some (webProcess okOracle [⟨"notes.txt", [1]⟩]).sessionFiles :=
  C1_amended_theorem okOracle "sid" [⟨"notes.txt", [1]⟩] (by decide) (by decide)

/-! ## Claim C2: the explicit output directory option -/

/-- Claim C2 counterexample: with an explicit output directory named out, a
directory argument converts its file into the jpg files sibling subfolder,
not into out (main never passes the output option to convert_folder),
refuting the claim that every converted file lands in the explicit
directory. -/
theorem C2_counterexample :
    ((cliMain okOracle ⟨[("d/a.heic", [1])], ["d"]⟩ ["d"] false (some "out")
        false 95).1 = (1, 0))
    ∧ ("d/jpg files/a.jpg"
        ∈ ((cliMain okOracle ⟨[("d/a.heic", [1])], ["d"]⟩ ["d"] false
          (some "out") false 95).2).files.map Prod.fst)
    ∧ (((cliMain okOracle ⟨[("d/a.heic", [1])], ["d"]⟩ ["d"] false
        (some "out") false 95).2).files.map Prod.fst).any
        (fun s => strStartsWith s "out/") = false := by
  decide

/-- Claim C2, amended: the explicit output directory applies exactly to the
paths named directly as files: for a file argument, the only path whose
contents the run can touch is the target inside the explicit directory; for
a directory argument the explicit output option is ignored entirely, the
run is the same whatever that option is. -/
theorem C2_amended_theorem :
    (∀ (O : Oracle) (fs : FS) (p out : String) (rec nsf : Bool) (q : Nat)
        (p2 : String),
      fs.isFile p = true → p2 ≠ cliTarget p (some out) →
        lookupKey ((cliMain O fs [p] rec (some out) nsf q).2).files p2
          = lookupKey fs.files p2)
    ∧ (∀ (O : Oracle) (fs : FS) (d : String) (rec nsf : Bool) (q : Nat)
        (o1 o2 : Option String),
      fs.isFile d = false →
        cliMain O fs [d] rec o1 nsf q = cliMain O fs [d] rec o2 nsf q) := by
  constructor
  · intro O fs p out rec nsf q p2 hf hne
    rw [cliMain_single_file O fs p rec nsf (some out) q hf]
    have hp : fs.pathExists p = true := by
      simp [FS.pathExists, hf]
    by_cases ht : fs.pathExists (cliTarget p (some out)) = true
    · rw [convert_skip O fs p (some out) q hp ht]
      simp [withOutputDir_files]
    · have ht2 : fs.pathExists (cliTarget p (some out)) = false := by
        simpa using ht
      cases hd : O.decode (fs.read p) with
      | error msg =>
        rw [convert_decodeErr O fs p (some out) q msg hp ht2 hd]
        simp [withOutputDir_files]
      | ok img =>
        rw [convert_ok O fs p (some out) q img hp ht2 hd]
        simp only [FS.write, withOutputDir_files]
        exact lookupKey_setKey_other _ _ _ _ hne
  · intro O fs d rec nsf q o1 o2 h
    simp [cliMain, cliStep, h]

/-! ## Claim C3: duplicate output names within a session -/

/-- Claim C3 counterexample: a batch of a.heic, a.heic, a_1.heic produces
the output names a.jpg, a_1.jpg, a_1.jpg, which are not pairwise distinct:
the counter works per base name, and the bare base a_1 collides with the
suffixed duplicate of a. -/
theorem C3_counterexample :
    ((webProcess okOracle
      [⟨"a.heic", [1]⟩, ⟨"a.heic", [1]⟩, ⟨"a_1.heic", [1]⟩]).converted.map
        ConvertedEntry.converted) = ["a.jpg", "a_1.jpg", "a_1.jpg"]
    ∧ ¬ ((webProcess okOracle
      [⟨"a.heic", [1]⟩, ⟨"a.heic", [1]⟩, ⟨"a_1.heic", [1]⟩]).converted.map
        ConvertedEntry.converted).Nodup := by
  decide

/-- Claim C3, amended: among the successes sharing one base name the naming
discipline holds exactly as claimed: the first keeps the bare name base.jpg
and the k-th following one gets base_k.jpg, in input order (so a batch with
a.heic twice yields a.jpg then a_1.jpg); but output names are only unique
per base name, not across the whole session. -/
theorem C3_amended_theorem :
    (∀ (O : Oracle) (files : List Entry) (b : String),
      namesForBase (webProcess O files) b
        = expectedNames b ((namesForBase (webProcess O files) b).length))
    ∧ ((webProcess okOracle [⟨"a.heic", [1]⟩, ⟨"a.heic", [1]⟩]).converted.map
        ConvertedEntry.converted) = ["a.jpg", "a_1.jpg"] := by
  constructor
  · intro O files b
    have hinit : ∀ b0, namesForBase initWebState b0
        = expectedNames b0 (counterVal initWebState b0) := by
      intro b0
      simp [namesForBase, counterVal, initWebState, expectedNames, lookupKey]
    have h := namesForBase_fold O files initWebState hinit b
    rw [webProcess, h]
    congr 1
    simp [expectedNames]
  · decide

/-! ## Claim C4: empty input files -/

/-- Claim C4 counterexample: the CLI path has no empty-file check; on a
zero-byte input it reports the decoder exception (Pillow raises a
cannot-identify error on empty input), not the Empty file reason, refuting
the claim that both paths record EmptyFile. -/
theorem C4_counterexample :
    FS.read ⟨[("pic.heic", [])], ["."]⟩ "pic.heic" = []
    ∧ (convert_heic_to_jpg okOracle ⟨[("pic.heic", [])], ["."]⟩ "pic.heic"
        none 95).1 = .failed "cannot identify image file"
    ∧ "cannot identify image file" ≠ "Empty file" := by
  decide

/-- Claim C4, amended: the web path checks for empty bytes before calling
the decoder and records the Empty file reason; the CLI path performs no
such check and records whatever message the decoder exception carries. -/
theorem C4_amended_theorem :
    (∀ (O : Oracle) (st : WebState) (e : Entry),
      e.filename ≠ "" → isHeicName e.filename = true → e.content = [] →
        webStep O st e
          = { st with failed := st.failed ++ [⟨e.filename, "Empty file"⟩] })
    ∧ (∀ (O : Oracle) (fs : FS) (p : String) (odir : Option String)
        (q : Nat) (msg : String),
      fs.pathExists p = true →
      fs.pathExists (cliTarget p odir) = false →
      O.decode (fs.read p) = .error msg →
        (convert_heic_to_jpg O fs p odir q).1 = .failed msg) := by
  constructor
  · intro O st e h1 h2 h3
    exact webStep_emptyBytes O st e h1 h2 h3
  · intro O fs p odir q msg h1 h2 h3
    rw [convert_decodeErr O fs p odir q msg h1 h2 h3]

/-! ## Claim C5: when the convert endpoint fails as a whole -/

/-- Claim C5: the convert endpoint returns a request-level error exactly
when the files field is missing, the uploaded list is empty, every entry
has an empty name, or zero files converted; in every other case, including
a batch with some failures, it returns success carrying the session id, the
per-file converted and failed lists and both counts. -/
theorem C5_theorem : ∀ (O : Oracle) (sid : String) (files : List Entry),
    ((convert_files O sid false files).1).isFailure = true
    ∧ (((convert_files O sid true files).1).isFailure = true
        ↔ (files = [] ∨ (∀ f ∈ files, f.filename = "")
            ∨ (webProcess O files).converted = []))
    ∧ ((webProcess O files).converted ≠ [] →
        (convert_files O sid true files).1
          = .success sid (webProcess O files).converted
              (webProcess O files).failed
              (webProcess O files).converted.length
              (webProcess O files).failed.length) := by
  intro O sid files
  refine ⟨rfl, ?_, ?_⟩
  · by_cases hc : (files.isEmpty || files.all fun f => f.filename = "") = true
    · have hresp : (convert_files O sid true files).1
          = .failure "No files selected" none := by
        simp [convert_files, hc]
      rw [hresp]
      simp only [WebResponse.isFailure, true_iff]
      rw [Bool.or_eq_true] at hc
      rcases hc with h | h
      · exact Or.inl (List.isEmpty_iff.mp h)
      · refine Or.inr (Or.inl fun f hf => ?_)
        simpa using List.all_eq_true.mp h f hf
    · have hc2 : (files.isEmpty || files.all fun f => f.filename = "")
          = false := by
        simpa using hc
      have hne : files ≠ [] := by
        intro h
        subst h
        simp at hc2
      have hnall : ¬ ∀ f ∈ files, f.filename = "" := by
        intro hall
        have : files.all (fun f => f.filename = "") = true :=
          List.all_eq_true.mpr fun f hf => by simpa using hall f hf
        simp [this] at hc2
      by_cases hcv : (webProcess O files).converted.isEmpty = true
      · have hresp : (convert_files O sid true files).1
            = .failure "No files were converted"
              (some (webProcess O files).failed) := by
          simp [convert_files, hc2, hcv]
        rw [hresp]
        simp only [WebResponse.isFailure, true_iff]
        exact Or.inr (Or.inr (List.isEmpty_iff.mp hcv))
      · have hcv0 : (webProcess O files).converted.isEmpty = false := by
          simpa using hcv
        have hcv2 : (webProcess O files).converted ≠ [] := by
          simpa [List.isEmpty_iff] using hcv
        have hresp : (convert_files O sid true files).1
            = .success sid (webProcess O files).converted
                (webProcess O files).failed
                (webProcess O files).converted.length
                (webProcess O files).failed.length := by
          simp [convert_files, hc2, hcv0]
        rw [hresp]
        simp only [WebResponse.isFailure, Bool.false_eq_true, false_iff]
        rintro (h | h | h)
        · exact hne h
        · exact hnall h
        · exact hcv2 h
  · intro hcv
    have hne : files.isEmpty = false := by
      cases files with
      | nil => exact absurd rfl hcv
      | cons a l => rfl
    have hnall : files.all (fun f => f.filename = "") = false := by
      by_contra hx
      have hall : files.all (fun f => f.filename = "") = true := by
        simpa using hx
      have hid : webProcess O files = initWebState :=
        webFold_allEmptyNames O files initWebState
          fun f hf => by simpa using List.all_eq_true.mp hall f hf
      exact hcv (by rw [hid]; rfl)
    have hcv0 : (webProcess O files).converted.isEmpty = false := by
      simpa [List.isEmpty_iff] using hcv
    simp [convert_files, hne, hnall, hcv0]

/-! ## Claim C6: skipping an already existing target -/

/-- Claim C6: when the target jpg path of a CLI input file already exists,
the converter returns the skip outcome carrying the target path, the
outcome is counted as success, the filesystem files are untouched (so the
existing target bytes are unchanged), and a run on that single file reports
one converted and zero failed. -/
theorem C6_theorem (O : Oracle) (fs : FS) (p : String) (odir : Option String)
    (rec nsf : Bool) (q : Nat)
    (h1 : fs.isFile p = true)
    (h2 : fs.isFile (cliTarget p odir) = true) :
    (convert_heic_to_jpg O fs p odir q).1 = .skipped (cliTarget p odir)
    ∧ ((convert_heic_to_jpg O fs p odir q).1).isSuccess = true
    ∧ ((convert_heic_to_jpg O fs p odir q).2).files = fs.files
    ∧ (cliMain O fs [p] rec odir nsf q).1 = (1, 0) := by
  have hp : fs.pathExists p = true := by
    simp [FS.pathExists, h1]
  have ht : fs.pathExists (cliTarget p odir) = true := by
    simp [FS.pathExists, h2]
  have hc := convert_skip O fs p odir q hp ht
  refine ⟨by rw [hc], by rw [hc]; rfl,
    by rw [hc]; exact withOutputDir_files fs odir, ?_⟩
  rw [cliMain_single_file O fs p rec nsf odir q h1, hc]
  rfl

/-- Witness for C6: a source file next to its already converted target. -/
theorem C6_witness :
    (convert_heic_to_jpg okOracle
        ⟨[("pic.heic", [1]), ("./pic.jpg", [9])], ["."]⟩
        "pic.heic" none 95).1 = .skipped (cliTarget "pic.heic" none)
    ∧ ((convert_heic_to_jpg okOracle
        ⟨[("pic.heic", [1]), ("./pic.jpg", [9])], ["."]⟩
        "pic.heic" none 95).1).isSuccess = true
    ∧ ((convert_heic_to_jpg okOracle
        ⟨[("pic.heic", [1]), ("./pic.jpg", [9])], ["."]⟩
        "pic.heic" none 95).2).files = [("pic.heic", [1]), ("./pic.jpg", [9])]
    ∧ (cliMain okOracle ⟨[("pic.heic", [1]), ("./pic.jpg", [9])], ["."]⟩
        ["pic.heic"] false none false 95).1 = (1, 0) :=
  C6_theorem okOracle ⟨[("pic.heic", [1]), ("./pic.jpg", [9])], ["."]⟩
    "pic.heic" none false false 95 (by decide) (by decide)

/-! ## Claim C7: folder scanning, deduplication and ordering -/

/-- Claim C7 counterexample: a file with the mixed-case extension Heic has
the case-insensitive heic extension, yet none of the four glob patterns of
convert_folder matches it, so the folder scan selects nothing and the
conversion run does nothing. -/
theorem C7_counterexample :
    folderFileList ⟨[("d/a.Heic", [1])], ["d"]⟩ "d" false = []
    ∧ isHeicName "d/a.Heic" = true
    ∧ convert_folder okOracle ⟨[("d/a.Heic", [1])], ["d"]⟩ "d" false true 95
        = ((0, 0), ⟨[("d/a.Heic", [1])], ["d"]⟩) := by
  decide

/-- Claim C7, amended: folder scanning selects exactly the files (direct
children, or any depth in recursive mode) whose extension is spelled
exactly one of .heic, .HEIC, .heif, .HEIF, since glob matching is case
sensitive; the selection is deduplicated case-insensitively by lowercased
path string (every match is represented by exactly one survivor) and the
processed list is sorted lexicographically, independent of the enumeration
order. -/
theorem C7_amended_theorem :
    (∀ (fs : FS) (d : String) (rec : Bool) (p : String),
      p ∈ findHeicFiles fs d rec
        ↔ (p ∈ fs.files.map Prod.fst
            ∧ (if rec then isUnderDir d p else isDirectChildOf d p) = true
            ∧ (strEndsWith p ".heic" = true ∨ strEndsWith p ".HEIC" = true
                ∨ strEndsWith p ".heif" = true
                ∨ strEndsWith p ".HEIF" = true)))
    ∧ (∀ (fs : FS) (d : String) (rec : Bool),
        ((folderFileList fs d rec).map strLower).Nodup
        ∧ (∀ q ∈ findHeicFiles fs d rec,
            ∃ p ∈ folderFileList fs d rec, strLower p = strLower q)
        ∧ (∀ p ∈ folderFileList fs d rec, p ∈ findHeicFiles fs d rec)
        ∧ (folderFileList fs d rec).Sorted fun a b => pathLe a b = true) := by
  constructor
  · intro fs d rec p
    simp only [findHeicFiles, globExt, List.mem_append, List.mem_filter,
      Bool.and_eq_true]
    tauto
  · intro fs d rec
    have hperm := sortPaths_perm (dedupCase (findHeicFiles fs d rec))
    refine ⟨?_, ?_, ?_, ?_⟩
    · have hnodup :=
        (dedupLower_nodupAndFresh (findHeicFiles fs d rec) []).1
      exact ((hperm.map strLower).nodup_iff).mpr hnodup
    · intro q hq
      rcases dedupLower_covers (findHeicFiles fs d rec) [] q hq with h | h
      · cases h
      · rcases h with ⟨p, hp, he⟩
        exact ⟨p, hperm.mem_iff.mpr hp, he⟩
    · intro p hp
      exact dedupLower_subset (findHeicFiles fs d rec) [] p
        (hperm.mem_iff.mp hp)
    · exact sortPaths_sorted _

/-! ## Claim C8: the download endpoint -/

/-- Claim C8: downloading a session fails with the not-found error exactly
when no directory exists for the id and with the empty error exactly when
the directory is empty; otherwise it returns an archive holding exactly the
regular files of the session directory under their flat names; the session
store is never modified, so a second call returns the same result. -/
theorem C8_theorem :
    ∀ (sessions : List (String × List DirEntry)) (sid : String),
    ((download_zip sessions sid).2 = sessions)
    ∧ (download_zip ((download_zip sessions sid).2) sid
        = download_zip sessions sid)
    ∧ ((download_zip sessions sid).1 = .sessionNotFound
        ↔ lookupKey sessions sid = none)
    ∧ ((download_zip sessions sid).1 = .emptySession
        ↔ lookupKey sessions sid = some [])
    ∧ (∀ entries, lookupKey sessions sid = some entries → entries ≠ [] →
        (download_zip sessions sid).1
          = .archive ((entries.filter fun e => e.regular).map fun e =>
            (e.name, e.content))) := by
  intro sessions sid
  cases hl : lookupKey sessions sid with
  | none =>
    refine ⟨by simp [download_zip, hl], by simp [download_zip, hl],
      by simp [download_zip, hl], by simp [download_zip, hl], ?_⟩
    intro entries h2
    cases h2
  | some entries =>
    by_cases he : entries.isEmpty = true
    · have he2 : entries = [] := List.isEmpty_iff.mp he
      subst he2
      refine ⟨by simp [download_zip, hl], by simp [download_zip, hl],
        by simp [download_zip, hl], by simp [download_zip, hl], ?_⟩
      intro entries2 h2 hne
      cases h2
      exact absurd rfl hne
    · have he0 : entries.isEmpty = false := by
        simpa using he
      refine ⟨by simp [download_zip, hl, he0], by simp [download_zip, hl, he0],
        by simp [download_zip, hl, he0], ?_, ?_⟩
      · constructor
        · intro h
          simp [download_zip, hl, he0] at h
        · intro h
          cases h
          simp at he0
      · intro entries2 h2 hne
        cases h2
        simp [download_zip, hl, he0]

/-! ## Claim C9: no extension check on explicit file arguments -/

/-- Claim C9: an explicit file argument is converted whatever its name: for
every existing file path, with the target not yet present, a successful
decode yields the converted outcome, the encoded bytes are written at the
target, and the run counts one converted and zero failed; the path p is
arbitrary, no hypothesis restricts its extension. -/
theorem C9_theorem (O : Oracle) (fs : FS) (p : String) (out : Option String)
    (rec nsf : Bool) (q : Nat) (img : Img)
    (h1 : fs.isFile p = true)
    (h2 : fs.pathExists (cliTarget p out) = false)
    (h3 : O.decode (fs.read p) = .ok img) :
    (convert_heic_to_jpg O fs p out q).1 = .converted (cliTarget p out)
    ∧ lookupKey ((convert_heic_to_jpg O fs p out q).2).files (cliTarget p out)
        = some (O.encode (normalizeMode img) q)
    ∧ (cliMain O fs [p] rec out nsf q).1 = (1, 0) := by
  have hp : fs.pathExists p = true := by
    simp [FS.pathExists, h1]
  have hc := convert_ok O fs p out q img hp h2 h3
  refine ⟨by rw [hc], ?_, ?_⟩
  · rw [hc]
    simp only [FS.write]
    exact lookupKey_setKey_self _ _ _
  · rw [cliMain_single_file O fs p rec nsf out q h1, hc]
    rfl

/-- Witness for C9 at a png named file the library can open. -/
theorem C9_witness :
    (convert_heic_to_jpg okOracle ⟨[("pics/shot.png", [7])], ["pics"]⟩
        "pics/shot.png" none 95).1 = .converted (cliTarget "pics/shot.png" none)
    ∧ lookupKey ((convert_heic_to_jpg okOracle
        ⟨[("pics/shot.png", [7])], ["pics"]⟩
        "pics/shot.png" none 95).2).files (cliTarget "pics/shot.png" none)
        = some (okOracle.encode (normalizeMode ⟨"RGB", 0⟩) 95)
    ∧ (cliMain okOracle ⟨[("pics/shot.png", [7])], ["pics"]⟩ ["pics/shot.png"]
        false none false 95).1 = (1, 0) :=
  C9_theorem okOracle ⟨[("pics/shot.png", [7])], ["pics"]⟩ "pics/shot.png"
    none false false 95 ⟨"RGB", 0⟩ (by decide) (by decide) rfl

/-! ## Claim C10: entries with empty names are silently skipped -/

/-- Claim C10: every uploaded entry with an empty name lands in neither the
converted list nor the failed list: the two counts add up to the number of
nonempty-named entries, every recorded name is nonempty, and a concrete
request with one empty-named entry and one good one returns success with
counts 1 and 0, strictly fewer than its two entries. -/
theorem C10_theorem :
    (∀ (O : Oracle) (files : List Entry),
      (webProcess O files).converted.length
          + (webProcess O files).failed.length
        = (files.filter fun f => f.filename ≠ "").length
      ∧ (∀ c ∈ (webProcess O files).converted, c.original ≠ "")
      ∧ (∀ x ∈ (webProcess O files).failed, x.name ≠ ""))
    ∧ (convert_files okOracle "sid" true [⟨"", [9]⟩, ⟨"a.heic", [1]⟩]).1
        = .success "sid" [⟨"a.heic", "a.jpg", 3⟩] [] 1 0 := by
  constructor
  · intro O files
    refine ⟨?_, ?_, ?_⟩
    · have h := webFold_counts O files initWebState
      simpa [webProcess, initWebState] using h
    · exact (webFold_namesNonempty O files initWebState
        (by simp [initWebState]) (by simp [initWebState])).1
    · exact (webFold_namesNonempty O files initWebState
        (by simp [initWebState]) (by simp [initWebState])).2
  · decide

end HeicConv
